import Mathlib

/-!
# Verification of the sBayes incremental likelihood-caching and cluster-growing core

Shallow embedding of the parts of the sBayes repository named by the claims:

* `src/sbayes/model/likelihood.py` — the dependency-tracked per-group likelihood
  caches (`compute_lh_clusters` / `compute_lh_confounder`), the generic feature-type
  engine `LikelihoodGenericType.__call__`, the pointwise likelihood with its NA patch,
  the aggregate `Likelihood.__call__` and `normalize_weights`;
* `src/sbayes/sampling/initializers.py` — `initialize_clusters`,
  `grow_cluster_of_size_k` (together with `get_neighbours` from
  `src/src/sbayes/util.py`) and the bounded retry wrapper `grow`;
* `src/sbayes/mcmc_setup.py` — `MCMCSetup.last_sample`.

Real-valued likelihood contributions are modelled by exact arithmetic (`ℤ` for the
abstract per-group log-likelihood values of the cache engine, `ℚ` where the code
divides, as in `normalize_weights`), so that the cached-vs-recomputed equality is
exact — which in particular implies the "within floating-point tolerance" phrasing
of the specification.  Randomness
(`random.sample` / `random.choice`) is modelled by an explicit pick oracle
`pick : ℕ → ℕ` selecting an index into the current candidate list, and in-place
numpy mutation is modelled by explicit state passing that also returns the final
value of the mutated array.
-/

namespace SBayes

/-! ## Dependency-tracked per-group likelihood cache

`CachedArray` models one `group_likelihoods` cache cell of `ModelCache`
(`sbayes/sampling/state.py`, used by `likelihood.py`): a per-group vector of cached
log-likelihood values together with per-group dirty markers for the
`sufficient_stats` input key.  `stats` is the per-group sufficient statistic the
closed-form marginal likelihood is computed from; it is abstracted to one exact
scalar per group (the count tensors enter only through the kernel function `g`). -/
structure GroupSection (n : ℕ) where
  stats : Fin n → ℤ
  value : Fin n → ℤ
  dirty : Fin n → Bool

/-- `what_changed('sufficient_stats', caching)` of a cache cell: with `caching=False`
it reports every group index; with `caching=True` only the dirty ones. -/
def whatChanged {n : ℕ} (caching : Bool) (s : GroupSection n) (i : Fin n) : Bool :=
  !caching || s.dirty i

/-- `compute_lh_clusters` / `compute_lh_confounder` (likelihood.py lines 232-245,
339-362, 473-496, 607-630, 634-660): inside a scoped `cache.edit()`, recompute the
closed-form marginal log-likelihood `g` for exactly the groups reported by
`what_changed`, commit, and return `cache.value.sum()` — the sum over all rows.
Returns the scalar together with the updated cache cell (dirty markers of the
recomputed groups cleared by the commit). -/
def computeLhGroups {n : ℕ} (g : ℤ → ℤ) (caching : Bool) (s : GroupSection n) :
    ℤ × GroupSection n :=
  let newValue : Fin n → ℤ := fun i =>
    if whatChanged caching s i then g (s.stats i) else s.value i
  (∑ i, newValue i,
   { stats := s.stats
     value := newValue
     dirty := fun i => s.dirty i && !whatChanged caching s i })

/-- A state mutation on one group of a section, as performed by the `Sample`
setters: replace the group's sufficient statistic and mark its cache row dirty
(`mark_dirty` is the sole channel of staleness propagation). -/
def mutateGroup {n : ℕ} (s : GroupSection n) (j : Fin n) (x : ℤ) : GroupSection n :=
  { stats := Function.update s.stats j x
    value := s.value
    dirty := Function.update s.dirty j true }

/-- Cache validity invariant: every clean row holds exactly the kernel value of the
current sufficient statistic of its group. -/
def SectionValid {n : ℕ} (g : ℤ → ℤ) (s : GroupSection n) : Prop :=
  ∀ i : Fin n, s.dirty i = false → s.value i = g (s.stats i)

/-! A feature-type engine (`LikelihoodGenericType`) owns one cluster section and one
section per confounder.  `__call__` (likelihood.py lines 103-121) sums
`compute_lh_clusters` and the `compute_lh_confounder` of every confounder; with
`caching=False` the sufficient statistics are first recomputed from scratch
(`recalculate_feature_counts`), which under the setter discipline leaves the
already-consistent statistics unchanged.  We model the engine state as a finite
family of sections (index `0` the clusters, the rest the confounders). -/
structure FTState (k : ℕ) (dims : Fin k → ℕ) where
  sections : (j : Fin k) → GroupSection (dims j)

/-- `LikelihoodGenericType.__call__`: total log-likelihood of one feature type, as
the sum of the per-section `computeLhGroups` results; also returns the updated
cache state (the scoped edits commit as the call runs). -/
def ftCall {k : ℕ} {dims : Fin k → ℕ} (g : ℤ → ℤ) (caching : Bool)
    (st : FTState k dims) : ℤ × FTState k dims :=
  (∑ j, (computeLhGroups g caching (st.sections j)).1,
   ⟨fun j => (computeLhGroups g caching (st.sections j)).2⟩)

/-- Validity of a whole feature-type state: every section satisfies the cache
invariant. -/
def FTValid {k : ℕ} {dims : Fin k → ℕ} (g : ℤ → ℤ) (st : FTState k dims) : Prop :=
  ∀ j : Fin k, SectionValid g (st.sections j)

/-- One state mutation: pick a section, a group inside it, and a new sufficient
statistic; apply the setter (replace + mark dirty) there, leaving other sections
untouched. -/
def ftMutate {k : ℕ} {dims : Fin k → ℕ} (st : FTState k dims)
    (j : Fin k) (i : Fin (dims j)) (x : ℤ) : FTState k dims :=
  ⟨Function.update st.sections j (mutateGroup (st.sections j) i x)⟩

/-- A single state mutation: a section index, a group index inside it, and the new
sufficient statistic written there. -/
def Mutation (k : ℕ) (dims : Fin k → ℕ) := Σ j : Fin k, Fin (dims j) × ℤ

/-- The verification run of the cache-correctness property: after each mutation,
evaluate the total log-likelihood with `caching=True` (threading the updated cache
into the next step) and, on the very same state, with `caching=False`; collect both
values at every step. -/
def checkTrace {k : ℕ} {dims : Fin k → ℕ} (g : ℤ → ℤ) :
    FTState k dims → List (Mutation k dims) → List (ℤ × ℤ)
  | _, [] => []
  | st, m :: ms =>
    ((ftCall g true (ftMutate st m.1 m.2.1 m.2.2)).1,
     (ftCall g false (ftMutate st m.1 m.2.1 m.2.2)).1)
      :: checkTrace g (ftCall g true (ftMutate st m.1 m.2.1 m.2.2)).2 ms

/-! ## Aggregate likelihood (`Likelihood.__call__`, likelihood.py lines 57-76) -/

/-- A feature-type engine state packaged with its dimensions (number of sections =
1 + number of confounders, group counts per section). -/
structure FTPack where
  k : ℕ
  dims : Fin k → ℕ
  st : FTState k dims

/-- The per-feature-type sub-states of a `Sample`: `sample.categorical` etc. are
`None` exactly when the feature type is structurally absent from the model. -/
structure AggSample where
  categorical : Option FTPack
  gaussian : Option FTPack
  poisson : Option FTPack
  logitnormal : Option FTPack

/-- The total log-likelihood an engine contributes for its (possibly absent)
feature type. -/
def ftContribution (g : ℤ → ℤ) (caching : Bool) : Option FTPack → ℤ
  | none => 0
  | some p => (ftCall g caching p.st).1

/-- `Likelihood.__call__` (likelihood.py lines 57-76): start from `log_lh = 0.0`
and sequentially add each feature-type engine's total log-likelihood, guarded by
`sample.<type> is not None`.  The four kernels are the per-type closed-form
marginals. -/
def likelihoodCall (gCat gGauss gPois gLogit : ℤ → ℤ) (s : AggSample)
    (caching : Bool) : ℤ :=
  let lh0 : ℤ := 0
  let lh1 := match s.categorical with
    | none => lh0
    | some p => lh0 + (ftCall gCat caching p.st).1
  let lh2 := match s.gaussian with
    | none => lh1
    | some p => lh1 + (ftCall gGauss caching p.st).1
  let lh3 := match s.poisson with
    | none => lh2
    | some p => lh2 + (ftCall gPois caching p.st).1
  match s.logitnormal with
  | none => lh3
  | some p => lh3 + (ftCall gLogit caching p.st).1

/-! ## Pointwise likelihood and the NA patch
(`LikelihoodGenericType.pointwise_likelihood`, likelihood.py lines 136-184) -/

/-- The `component_likelihoods` cache cell: the cached
(objects × features × components) array together with its outdated flag. -/
structure PointwiseCache (nO nF nC : ℕ) where
  value : Fin nO → Fin nF → Fin nC → ℤ
  outdated : Bool

/-- `pointwise_likelihood`: if `caching` is set and the cache is not outdated,
return the cached array unchanged.  Otherwise, inside a scoped `edit`, update each
component column whose upstream sufficient statistics changed (`upd c` models
`compute_pointwise_cluster_likelihood` for column 0 and
`compute_pointwise_confounder_likelihood` for columns ≥ 1; `colChanged c` models
`len(what_changed(...)) > 0`), then run `component_likelihood[self.na_values()] = 1.`
and commit the patched array to the cache.  `naIdx` is the value of
`self.na_values()`: the categorical engine returns the data's boolean NA mask
(likelihood.py lines 324-325) so that exactly the masked entries are set to `1`;
the Gaussian, Poisson and logit-normal engines inherit the base method
(lines 211-212), which returns `None`, and numpy `None` (newaxis) indexing makes
the assignment cover the whole array — every entry becomes `1`. -/
def pointwiseLikelihood {nO nF nC : ℕ} (naIdx : Option (Fin nO → Fin nF → Bool))
    (upd : Fin nC → (Fin nO → Fin nF → ℤ) → Fin nO → Fin nF → ℤ)
    (colChanged : Fin nC → Bool) (caching : Bool) (cache : PointwiseCache nO nF nC) :
    (Fin nO → Fin nF → Fin nC → ℤ) × PointwiseCache nO nF nC :=
  if caching && !cache.outdated then (cache.value, cache)
  else
    let computed : Fin nO → Fin nF → Fin nC → ℤ := fun o f c =>
      if colChanged c then upd c (fun oo ff => cache.value oo ff c) o f
      else cache.value o f c
    let patched : Fin nO → Fin nF → Fin nC → ℤ := fun o f c =>
      match naIdx with
      | some na => if na o f then 1 else computed o f c
      | none => 1
    (patched, ⟨patched, false⟩)

/-! ## Cluster initializer / grower (initializers.py, util.py) -/

/-- Number of `true` entries of a boolean mask (`np.sum` of a boolean array). -/
def maskCard {n : ℕ} (p : Fin n → Bool) : ℕ :=
  (Finset.univ.filter (fun i => p i = true)).card

/-- The indices where a boolean mask holds, in index order (`np.nonzero`). -/
def trueList {n : ℕ} (p : Fin n → Bool) : List (Fin n) :=
  (List.finRange n).filter (fun i => p i)

/-- `get_neighbours` (util.py lines 100-116): the neighbourhood of a zone —
objects adjacent to some zone member (`adj_mat.dot(zone)` nonzero), excluding
objects already claimed by any cluster (`~already_in_zone`). -/
def getNeighbours {n : ℕ} (adjMat : Fin n → Fin n → Bool)
    (zone alreadyInZone : Fin n → Bool) (i : Fin n) : Bool :=
  (decide (∃ j, adjMat i j = true ∧ zone j = true)) && !alreadyInZone i

/-- The growth loop of `grow_cluster_of_size_k` (initializers.py lines 308-316):
`steps` times, compute the neighbour frontier, raise `ClusterError` if it is
empty, otherwise add the frontier member chosen by the pick oracle to both the
cluster and the occupancy mask (in Python both arrays are mutated in place).
Returns the `ClusterError`-or-result outcome together with the final contents of
the occupancy mask and of the cluster-so-far (the observable state of the
caller's arrays at exit, also on the error path). -/
def growLoop {n : ℕ} (adjMat : Fin n → Fin n → Bool) (pick : ℕ → ℕ) :
    ℕ → ℕ → (Fin n → Bool) → (Fin n → Bool) →
    Except Unit ((Fin n → Bool) × (Fin n → Bool)) × (Fin n → Bool) × (Fin n → Bool)
  | 0, _, cluster, already => (Except.ok (cluster, already), already, cluster)
  | steps + 1, t, cluster, already =>
    match trueList (getNeighbours adjMat cluster already) with
    | [] => (Except.error (), already, cluster)
    | x :: xs =>
      growLoop adjMat pick steps (t + 1)
        (Function.update cluster ((x :: xs).getD (pick t % (x :: xs).length) x) true)
        (Function.update already ((x :: xs).getD (pick t % (x :: xs).length) x) true)

/-- `grow_cluster_of_size_k` (initializers.py lines 281-319): pick a random free
object as seed (raising `ClusterError` if none is free), mark it in the cluster
and in the occupancy mask, then grow `k - 1` times through the neighbour
frontier.  The second and third components expose the final contents of the
in-place-mutated `already_in_cluster` argument and of the cluster under
construction, on both the success and the error path. -/
def growClusterOfSizeK {n : ℕ} (adjMat : Fin n → Fin n → Bool) (pick : ℕ → ℕ)
    (k : ℕ) (alreadyInCluster : Fin n → Bool) :
    Except Unit ((Fin n → Bool) × (Fin n → Bool)) × (Fin n → Bool) × (Fin n → Bool) :=
  match trueList (fun i => !alreadyInCluster i) with
  | [] => (Except.error (), alreadyInCluster, fun _ => false)
  | x :: xs =>
    growLoop adjMat pick (k - 1) 1
      (Function.update (fun _ => false) ((x :: xs).getD (pick 0 % (x :: xs).length) x) true)
      (Function.update alreadyInCluster ((x :: xs).getD (pick 0 % (x :: xs).length) x) true)

/-- Clusters reachable from a starting pair (cluster, occupancy) by repeatedly
adding a member of the current neighbour frontier to both masks: the growth
discipline of `grow_cluster_of_size_k`. -/
inductive Grown {n : ℕ} (adjMat : Fin n → Fin n → Bool) :
    (Fin n → Bool) → (Fin n → Bool) → (Fin n → Bool) → (Fin n → Bool) → Prop
  | refl (cl alr : Fin n → Bool) : Grown adjMat cl alr cl alr
  | step {cl alr cl' alr' : Fin n → Bool} (j : Fin n) :
      Grown adjMat cl alr cl' alr' →
      getNeighbours adjMat cl' alr' j = true →
      Grown adjMat cl alr (Function.update cl' j true) (Function.update alr' j true)

/-- The seeding loop of `initialize_clusters` (initializers.py lines 213-228):
for each cluster in turn, pick a random member of the free list as its seed and
remove it from the free list; `none` models `random.sample` raising on an empty
free list.  Returns the list of seed objects, one per cluster. -/
def initLoop {n : ℕ} (pick : ℕ → ℕ) : ℕ → ℕ → List (Fin n) → Option (List (Fin n))
  | 0, _, _ => some []
  | m + 1, t, free =>
    match free with
    | [] => none
    | x :: xs =>
      match initLoop pick m (t + 1)
          ((x :: xs).erase ((x :: xs).getD (pick t % (x :: xs).length) x)) with
      | none => none
      | some rest => some (((x :: xs).getD (pick t % (x :: xs).length) x) :: rest)

/-- `initialize_clusters`: start with the full free list (all objects) and seed
every cluster with one free object, without replacement. -/
def initializeClusters (n nClusters : ℕ) (pick : ℕ → ℕ) : Option (List (Fin n)) :=
  initLoop pick nClusters 0 (List.finRange n)

/-- The boolean cluster matrix induced by the seed list: row `c` is `true`
exactly at the seed of cluster `c` (`clusters[i_c, j] = True` on a zero matrix). -/
def clusterMatrixRow {n : ℕ} (seeds : List (Fin n)) (c : ℕ) (o : Fin n) : Bool :=
  decide (seeds.get? c = some o)

/-- The attempt-state sequence of the bounded retry wrapper `grow`
(initializers.py lines 176-184): `attemptState op s i` is the sample fed into the
`i`-th call of `cluster_operator.grow_cluster` (the sample returned by a rejected
attempt is threaded into the next attempt). -/
def attemptState {α : Type} (op : α → α × Bool) (s : α) : ℕ → α
  | 0 => s
  | i + 1 => (op (attemptState op s i)).1

/-- The retry loop of `grow`: run the proposal; if it was rejected
(`q == Q_REJECT`), retry on the returned sample, else return the returned sample;
raise `ClusterError` when the attempt budget is exhausted. -/
def growRetry {α : Type} (op : α → α × Bool) : ℕ → α → Except Unit α
  | 0, _ => Except.error ()
  | m + 1, s => if (op s).2 then growRetry op m (op s).1 else Except.ok (op s).1

/-- `SbayesInitializer.grow` (initializers.py lines 176-184): up to 20 attempts of
the one-step grow-cluster proposal. -/
def grow {α : Type} (op : α → α × Bool) (s : α) : Except Unit α :=
  growRetry op 20 s

/-! ## Resuming from persisted results (`MCMCSetup.last_sample`,
mcmc_setup.py lines 141-188) -/

/-- A previously persisted run as read back by `read_previous_results`: the
histories of cluster assignments, weights and sample indices, plus persisted
snapshots of the source tensor and of the sufficient statistics (which resuming
must never consult). -/
structure Results (κ ω σ τ : Type) where
  clustersHistory : List κ
  weightsHistory : List ω
  sampleId : List ℕ
  sourceSnapshot : σ
  statsSnapshot : τ

/-- The `Sample` fields `last_sample` assembles. -/
structure SampleR (κ ω σ τ : Type) where
  clusters : κ
  weights : ω
  source : σ
  featureCounts : τ
  iStep : ℕ

/-- `MCMCSetup.last_sample` (mcmc_setup.py lines 141-188): take the final cluster
assignment and weights from the persisted results and the final sample index,
build the sample with a fresh uninitialized `dummy_source` placeholder and
all-zero feature counts, set `i_step` to the persisted last sample index plus one,
then overwrite `source` by re-imputing it from the prior (`impute_source`) and
recompute the feature counts from the data (`recalculate_feature_counts`).
`impute` and `recalc` are the two helpers, abstracted as arbitrary functions of
the sample they receive (their modules are external to this subset). -/
def lastSample {κ ω σ τ : Type} [Inhabited κ] [Inhabited ω]
    (placeholderSource : σ) (zeroCounts : τ)
    (impute : SampleR κ ω σ τ → σ) (recalc : SampleR κ ω σ τ → τ)
    (r : Results κ ω σ τ) : SampleR κ ω σ τ :=
  let s0 : SampleR κ ω σ τ :=
    { clusters := r.clustersHistory.getLastD default
      weights := r.weightsHistory.getLastD default
      source := placeholderSource
      featureCounts := zeroCounts
      iStep := r.sampleId.getLastD 0 + 1 }
  let s1 := { s0 with source := impute s0 }
  { s1 with featureCounts := recalc s1 }

/-! ## Weight normalization (`normalize_weights`, likelihood.py lines 833-852) -/

/-- numpy boolean-to-number coercion, as in `pattern[:, None, :] * weights`. -/
def boolVal (b : Bool) : ℚ := if b then 1 else 0

/-- `np.unique(has_components, axis=0)`: the distinct rows of the
`has_components` matrix. -/
def uniquePatterns {nO nC : ℕ} (hc : Fin nO → Fin nC → Bool) :
    List (Fin nC → Bool) :=
  ((List.finRange nO).map hc).dedup

/-- `return_inverse`: the index of an object's row among the unique patterns. -/
def patternInv {nO nC : ℕ} (hc : Fin nO → Fin nC → Bool) (o : Fin nO) : ℕ :=
  (uniquePatterns hc).indexOf (hc o)

/-- `w_per_pattern`: the weights masked by one pattern and renormalized along the
component axis (`w_per_pattern /= np.sum(w_per_pattern, axis=-1, keepdims=True)`). -/
def wPerPattern {nF nC : ℕ} (w : Fin nF → Fin nC → ℚ) (pat : Fin nC → Bool)
    (f : Fin nF) (c : Fin nC) : ℚ :=
  (boolVal (pat c) * w f c) / ∑ d, boolVal (pat d) * w f d

/-- `normalize_weights`: compute the normalized weights once per unique
`has_components` pattern and broadcast them back to the objects through the
inverse index (`w_per_pattern[pattern_inv]`). -/
def normalizeWeights {nO nF nC : ℕ} (w : Fin nF → Fin nC → ℚ)
    (hc : Fin nO → Fin nC → Bool) (o : Fin nO) (f : Fin nF) (c : Fin nC) : ℚ :=
  wPerPattern w ((uniquePatterns hc).getD (patternInv hc o) (hc o)) f c

/-- Concrete demonstration state: two sections (clusters and one confounder), two
groups each, all rows dirty (a cold start, as after `everything_changed`). -/
def demoFTState : FTState 2 (fun _ => 2) :=
  ⟨fun j => if j = 0 then ⟨![3, 5], ![0, 0], ![true, true]⟩
            else ⟨![2, 7], ![1, 1], ![true, true]⟩⟩

/-- Concrete mutation sequence used to exercise the cache-correctness run. -/
def demoMutations : List (Mutation 2 (fun _ => 2)) := [⟨0, 1, 9⟩, ⟨1, 0, 4⟩]

/-- Concrete section with a mix of clean and dirty rows. -/
def demoSection : GroupSection 2 := ⟨![3, 5], ![7, 0], ![false, true]⟩

/-- Concrete aggregate sample: categorical and poisson present, gaussian and
logit-normal structurally absent. -/
def demoAgg : AggSample :=
  ⟨some ⟨2, fun _ => 2, demoFTState⟩, none,
   some ⟨1, fun _ => 1, ⟨fun _ => ⟨![4], ![0], ![true]⟩⟩⟩, none⟩

/-- Concrete adjacency matrix: a path graph on four objects. -/
def demoAdj : Fin 4 → Fin 4 → Bool :=
  ![![false, true, false, false], ![true, false, true, false],
    ![false, true, false, true], ![false, false, true, false]]

/-- Concrete weights matrix (one feature, two components). -/
def demoW : Fin 1 → Fin 2 → ℚ := ![![2, 3]]

/-- Concrete `has_components` matrix with a repeated row pattern. -/
def demoHc : Fin 3 → Fin 2 → Bool := ![![true, true], ![true, false], ![true, true]]

/-- Concrete NA mask: object 0 is not applicable at feature 0. -/
def demoNa : Fin 2 → Fin 2 → Bool := ![![true, false], ![false, false]]

/-- Concrete column update kernel for the pointwise likelihood. -/
def demoUpd (c : Fin 2) (prev : Fin 2 → Fin 2 → ℤ) (o f : Fin 2) : ℤ :=
  prev o f + 1 + (c : ℤ)

/-- Concrete changed-column flags. -/
def demoChanged : Fin 2 → Bool := ![true, false]

/-- Concrete outdated pointwise cache. -/
def demoPW : PointwiseCache 2 2 2 := ⟨fun _ _ _ => 5, true⟩

/-- Concrete grow-cluster proposal: rejects the first three attempts. -/
def demoOp : ℕ → ℕ × Bool := fun x => (x + 1, decide (x < 3))

/-- Concrete persisted results. -/
def demoResults : Results ℕ ℕ ℕ ℕ := ⟨[1, 2], [5, 6], [10, 11], 97, 98⟩

/-- The same persisted histories with different source/statistics snapshots. -/
def demoResultsAlt : Results ℕ ℕ ℕ ℕ := ⟨[1, 2], [5, 6], [10, 11], 123, 456⟩

theorem whatChanged_false_elim {n : ℕ} {caching : Bool} {s : GroupSection n}
    {i : Fin n} (h : whatChanged caching s i = false) : s.dirty i = false := by
  unfold whatChanged at h
  cases hc : caching
  · simp [hc] at h
  · simpa [hc] using h

theorem computeLhGroups_fst_of_valid {n : ℕ} (g : ℤ → ℤ) (caching : Bool)
    (s : GroupSection n) (h : SectionValid g s) :
    (computeLhGroups g caching s).1 = ∑ i, g (s.stats i) := by
  have hval : ∀ i : Fin n,
      (if whatChanged caching s i then g (s.stats i) else s.value i) = g (s.stats i) := by
    intro i
    by_cases hc : whatChanged caching s i = true
    · simp [hc]
    · have hb : whatChanged caching s i = false := by simpa using hc
      simp [hb, h i (whatChanged_false_elim hb)]
  simp [computeLhGroups, hval]

theorem computeLhGroups_snd_valid {n : ℕ} (g : ℤ → ℤ) (caching : Bool)
    (s : GroupSection n) (h : SectionValid g s) :
    SectionValid g (computeLhGroups g caching s).2 := by
  intro i _
  show (if whatChanged caching s i then g (s.stats i) else s.value i) = g (s.stats i)
  by_cases hc : whatChanged caching s i = true
  · simp [hc]
  · have hb : whatChanged caching s i = false := by simpa using hc
    simp [hb, h i (whatChanged_false_elim hb)]

theorem mutateGroup_valid {n : ℕ} (g : ℤ → ℤ) (s : GroupSection n)
    (j : Fin n) (x : ℤ) (h : SectionValid g s) : SectionValid g (mutateGroup s j x) := by
  intro i hd
  simp only [mutateGroup] at hd ⊢
  by_cases hij : i = j
  · subst hij; simp [Function.update_same] at hd
  · rw [Function.update_noteq hij] at hd
    rw [Function.update_noteq hij]
    exact h i hd

theorem ftCall_fst_of_valid {k : ℕ} {dims : Fin k → ℕ} (g : ℤ → ℤ) (caching : Bool)
    (st : FTState k dims) (h : FTValid g st) :
    (ftCall g caching st).1 = ∑ j, ∑ i, g ((st.sections j).stats i) := by
  show (∑ j, (computeLhGroups g caching (st.sections j)).1)
      = ∑ j, ∑ i, g ((st.sections j).stats i)
  exact Finset.sum_congr rfl fun j _ => computeLhGroups_fst_of_valid g caching _ (h j)

theorem ftCall_snd_valid {k : ℕ} {dims : Fin k → ℕ} (g : ℤ → ℤ) (caching : Bool)
    (st : FTState k dims) (h : FTValid g st) : FTValid g (ftCall g caching st).2 :=
  fun j => computeLhGroups_snd_valid g caching _ (h j)

theorem ftMutate_valid {k : ℕ} {dims : Fin k → ℕ} (g : ℤ → ℤ) (st : FTState k dims)
    (j : Fin k) (i : Fin (dims j)) (x : ℤ) (h : FTValid g st) :
    FTValid g (ftMutate st j i x) := by
  intro j'
  by_cases hj : j' = j
  · subst hj
    show SectionValid g (Function.update st.sections j' (mutateGroup (st.sections j') i x) j')
    rw [Function.update_same]
    exact mutateGroup_valid g _ i x (h j')
  · show SectionValid g (Function.update st.sections j (mutateGroup (st.sections j) i x) j')
    rw [Function.update_noteq hj]
    exact h j'

/-- **C1**: for every feature-type engine state whose cache satisfies the validity
invariant (in particular any cold-start state, where every row is dirty) and every
sequence of state mutations, the total log-likelihood computed by
`LikelihoodGenericType.__call__` with `caching=True` equals, at every step, the
value computed with `caching=False` on the same state — exactly, hence in
particular within floating-point tolerance. -/
theorem claim_C1_cache_equivalence {k : ℕ} {dims : Fin k → ℕ} (g : ℤ → ℤ)
    (st : FTState k dims) (ms : List (Mutation k dims)) (hv : FTValid g st) :
    ∀ p ∈ checkTrace g st ms, p.1 = p.2 := by
  induction ms generalizing st with
  | nil => intro p hp; simp [checkTrace] at hp
  | cons m ms ih =>
    intro p hp
    have hv1 : FTValid g (ftMutate st m.1 m.2.1 m.2.2) :=
      ftMutate_valid g st m.1 m.2.1 m.2.2 hv
    simp only [checkTrace, List.mem_cons] at hp
    rcases hp with hp | hp
    · subst hp
      show (ftCall g true (ftMutate st m.1 m.2.1 m.2.2)).1
          = (ftCall g false (ftMutate st m.1 m.2.1 m.2.2)).1
      rw [ftCall_fst_of_valid g true _ hv1, ftCall_fst_of_valid g false _ hv1]
    · exact ih _ (ftCall_snd_valid g true _ hv1) p hp

/-- Witness for C1 at a concrete cold-start state and mutation sequence. -/
theorem claim_C1_cache_equivalence_witness :
    FTValid (fun z => z * z) demoFTState ∧
      ∀ p ∈ checkTrace (fun z => z * z) demoFTState demoMutations, p.1 = p.2 :=
  ⟨by unfold FTValid SectionValid; decide,
   claim_C1_cache_equivalence (fun z => z * z) demoFTState demoMutations
     (by unfold FTValid SectionValid; decide)⟩

/-- **C2**: `compute_lh_clusters` recomputes the closed-form marginal log-likelihood
exactly for the indices reported changed by the cache (all indices when
`caching=False`, the dirty ones when `caching=True`), writes them into the
per-cluster cache rows, and returns the sum over all rows of the committed cache —
rows not reported changed keep their previous values but are still summed. -/
theorem claim_C2_compute_lh_clusters {n : ℕ} (g : ℤ → ℤ) (caching : Bool)
    (s : GroupSection n) :
    (computeLhGroups g caching s).1 = (∑ i, (computeLhGroups g caching s).2.value i)
    ∧ (∀ i : Fin n,
        (whatChanged caching s i = true →
          (computeLhGroups g caching s).2.value i = g (s.stats i))
        ∧ (whatChanged caching s i = false →
          (computeLhGroups g caching s).2.value i = s.value i))
    ∧ (∀ i : Fin n, whatChanged true s i = s.dirty i)
    ∧ (∀ i : Fin n, whatChanged false s i = true) := by
  refine ⟨rfl, fun i => ⟨fun h => ?_, fun h => ?_⟩, fun i => by simp [whatChanged],
    fun i => by simp [whatChanged]⟩
  · show (if whatChanged caching s i then g (s.stats i) else s.value i) = g (s.stats i)
    simp [h]
  · show (if whatChanged caching s i then g (s.stats i) else s.value i) = s.value i
    simp [h]

/-- Witness for C2 at a concrete cache section: the returned scalar is the sum over
all rows of the committed cache. -/
theorem claim_C2_compute_lh_clusters_witness :
    (computeLhGroups (fun z => 2 * z) true demoSection).1
      = ∑ i, (computeLhGroups (fun z => 2 * z) true demoSection).2.value i :=
  (claim_C2_compute_lh_clusters (fun z => 2 * z) true demoSection).1

/-- **C3 (counterexample to the claim as stated)**: for an engine whose
`na_values()` is `None` — i.e. the Gaussian, Poisson and logit-normal engines,
which inherit the base method (likelihood.py lines 211-212) — the patch
`component_likelihood[None] = 1.` sets the whole array to 1: at a concrete
recompute with an all-applicable data set (empty NA mask), the entry
(object 0, feature 0, component 0) is set to 1 even though its freshly computed
component likelihood is 6 ≠ 1, so the neutral patch does not hit exactly the
excluded entries. -/
theorem claim_C3_na_patch_counterexample :
    (fun (_ : Fin 2) (_ : Fin 2) => (false : Bool)) 0 0 = false
    ∧ (pointwiseLikelihood none demoUpd demoChanged false demoPW).1 0 0 0 = 1
    ∧ (if demoChanged 0 then demoUpd 0 (fun oo ff => demoPW.value oo ff 0) 0 0
       else demoPW.value 0 0 0) = 6
    ∧ (6 : ℤ) ≠ 1 := by
  refine ⟨rfl, by decide, by decide, by decide⟩

/-- **C3 (amended)**: whenever `pointwise_likelihood` takes the recompute path
(`caching=False`, or the cache is outdated), the patched array is exactly what is
committed to the cache, and the patch behaves as follows: for the categorical
engine, whose `na_values()` is the data's NA mask, exactly the (object, feature)
entries in that mask are set to the neutral unit contribution 1 (across all
component columns) and every other entry keeps its freshly computed component
likelihood (the column update where the column changed, the previous column
content otherwise); for the Gaussian, Poisson and logit-normal engines
`na_values()` is `None` and the numpy `None`-indexed assignment sets every entry
of the freshly computed array to 1 before it is cached. -/
theorem claim_C3_na_patch {nO nF nC : ℕ} (naIdx : Option (Fin nO → Fin nF → Bool))
    (upd : Fin nC → (Fin nO → Fin nF → ℤ) → Fin nO → Fin nF → ℤ)
    (colChanged : Fin nC → Bool) (caching : Bool) (cache : PointwiseCache nO nF nC)
    (hrecompute : caching = false ∨ cache.outdated = true) :
    (∀ na, naIdx = some na →
      (∀ o f c, na o f = true →
        (pointwiseLikelihood naIdx upd colChanged caching cache).1 o f c = 1)
      ∧ (∀ o f c, na o f = false →
        (pointwiseLikelihood naIdx upd colChanged caching cache).1 o f c
          = (if colChanged c then upd c (fun oo ff => cache.value oo ff c) o f
             else cache.value o f c)))
    ∧ (naIdx = none →
        ∀ o f c, (pointwiseLikelihood naIdx upd colChanged caching cache).1 o f c = 1)
    ∧ (pointwiseLikelihood naIdx upd colChanged caching cache).2.value
        = (pointwiseLikelihood naIdx upd colChanged caching cache).1 := by
  have hcond : (caching && !cache.outdated) = false := by
    rcases hrecompute with h | h <;> simp [h]
  refine ⟨fun na hna => ⟨fun o f c h => ?_, fun o f c h => ?_⟩,
    fun hna o f c => ?_, ?_⟩
  · simp [pointwiseLikelihood, hcond, hna, h]
  · simp [pointwiseLikelihood, hcond, hna, h]
  · simp [pointwiseLikelihood, hcond, hna]
  · simp [pointwiseLikelihood, hcond]

/-- Witness for C3 (amended): at a concrete outdated cache with `caching=False`
and the categorical engine's NA mask, the not-applicable entry (object 0,
feature 0) is forced to 1. -/
theorem claim_C3_na_patch_witness :
    ((false : Bool) = false ∨ demoPW.outdated = true) ∧
      (pointwiseLikelihood (some demoNa) demoUpd demoChanged false demoPW).1 0 0 0 = 1 :=
  ⟨Or.inl rfl,
   ((claim_C3_na_patch (some demoNa) demoUpd demoChanged false demoPW
       (Or.inl rfl)).1 demoNa rfl).1 0 0 0 (by decide)⟩

/-- **C4**: `Likelihood.__call__` returns exactly the sum of the four feature-type
engines' total log-likelihoods, where an engine contributes `0` (is skipped) iff
its feature type is structurally absent from the sample (`sample.<type> is None`),
and otherwise contributes its `total_log_likelihood` under the same caching flag. -/
theorem claim_C4_aggregate_likelihood (gCat gGauss gPois gLogit : ℤ → ℤ)
    (s : AggSample) (caching : Bool) :
    likelihoodCall gCat gGauss gPois gLogit s caching
      = ftContribution gCat caching s.categorical
        + ftContribution gGauss caching s.gaussian
        + ftContribution gPois caching s.poisson
        + ftContribution gLogit caching s.logitnormal
    ∧ (∀ g : ℤ → ℤ, ∀ c : Bool, ftContribution g c none = 0)
    ∧ (∀ g : ℤ → ℤ, ∀ c : Bool, ∀ p : FTPack,
        ftContribution g c (some p) = (ftCall g c p.st).1) := by
  refine ⟨?_, fun g c => rfl, fun g c p => rfl⟩
  rcases s with ⟨cat, gau, poi, log⟩
  cases cat <;> cases gau <;> cases poi <;> cases log <;>
    simp [likelihoodCall, ftContribution]

/-- Witness for C4 at a concrete sample with two feature types absent. -/
theorem claim_C4_aggregate_likelihood_witness :
    likelihoodCall (fun z => z) (fun z => z + 1) (fun z => 2 * z) (fun z => z - 1)
        demoAgg true
      = ftContribution (fun z => z) true demoAgg.categorical
        + ftContribution (fun z => z + 1) true demoAgg.gaussian
        + ftContribution (fun z => 2 * z) true demoAgg.poisson
        + ftContribution (fun z => z - 1) true demoAgg.logitnormal :=
  (claim_C4_aggregate_likelihood (fun z => z) (fun z => z + 1) (fun z => 2 * z)
    (fun z => z - 1) demoAgg true).1

theorem uniquePatterns_getD {nO nC : ℕ} (hc : Fin nO → Fin nC → Bool) (o : Fin nO) :
    (uniquePatterns hc).getD (patternInv hc o) (hc o) = hc o := by
  have hmem : hc o ∈ uniquePatterns hc := by
    rw [uniquePatterns, List.mem_dedup]
    exact List.mem_map_of_mem hc (List.mem_finRange o)
  have hlt : patternInv hc o < (uniquePatterns hc).length :=
    List.indexOf_lt_length.mpr hmem
  rw [List.getD_eq_getElem _ _ hlt]
  exact List.getElem_indexOf hlt

/-- The pattern looked up through `np.unique`'s inverse index is the object's own
`has_components` row, so the per-object output depends on the object only through
that row. -/
theorem normalizeWeights_eq_pattern {nO nF nC : ℕ} (w : Fin nF → Fin nC → ℚ)
    (hc : Fin nO → Fin nC → Bool) (o : Fin nO) :
    normalizeWeights w hc o = wPerPattern w (hc o) := by
  funext f c
  unfold normalizeWeights
  rw [uniquePatterns_getD]

/-- **C5**: for non-negative weights where every object has at least one active
component of positive weight, `normalize_weights` gives identical per-object rows
to objects with identical `has_components` rows, each row equals the input weights
masked by the object's active components and divided by their total, and each such
row sums to 1 over the component axis. -/
theorem claim_C5_normalize_weights {nO nF nC : ℕ} (w : Fin nF → Fin nC → ℚ)
    (hc : Fin nO → Fin nC → Bool)
    (hw : ∀ f c, 0 ≤ w f c)
    (hact : ∀ (o : Fin nO) (f : Fin nF), ∃ c, hc o c = true ∧ 0 < w f c) :
    (∀ o₁ o₂ : Fin nO, hc o₁ = hc o₂ →
        normalizeWeights w hc o₁ = normalizeWeights w hc o₂)
    ∧ (∀ o f c, normalizeWeights w hc o f c
        = (if hc o c then w f c else 0) / ∑ d, (if hc o d then w f d else 0))
    ∧ (∀ o f, (∑ c, normalizeWeights w hc o f c) = 1) := by
  have hmask : ∀ (b : Bool) (q : ℚ), boolVal b * q = if b then q else 0 := by
    intro b q; cases b <;> simp [boolVal]
  have hpos : ∀ (o : Fin nO) (f : Fin nF),
      0 < ∑ d, boolVal (hc o d) * w f d := by
    intro o f
    obtain ⟨c₀, hc₀, hwc₀⟩ := hact o f
    refine Finset.sum_pos' (fun d _ => ?_) ⟨c₀, Finset.mem_univ c₀, ?_⟩
    · cases h : hc o d <;> simp [boolVal, hw f d]
    · simp [boolVal, hc₀, hwc₀]
  refine ⟨fun o₁ o₂ h => ?_, fun o f c => ?_, fun o f => ?_⟩
  · rw [normalizeWeights_eq_pattern, normalizeWeights_eq_pattern, h]
  · rw [normalizeWeights_eq_pattern]
    simp only [wPerPattern, hmask]
  · have hrw := normalizeWeights_eq_pattern w hc o
    calc (∑ c, normalizeWeights w hc o f c)
        = ∑ c, wPerPattern w (hc o) f c := by rw [hrw]
      _ = (∑ c, boolVal (hc o c) * w f c) / (∑ d, boolVal (hc o d) * w f d) := by
          simp only [wPerPattern]
          rw [Finset.sum_div]
      _ = 1 := div_self (hpos o f).ne'

/-- Witness for C5 at concrete weights and a `has_components` matrix where objects
0 and 2 share a pattern. -/
theorem claim_C5_normalize_weights_witness :
    (∀ f c, 0 ≤ demoW f c)
    ∧ (∀ (o : Fin 3) (f : Fin 1), ∃ c, demoHc o c = true ∧ 0 < demoW f c)
    ∧ normalizeWeights demoW demoHc 0 = normalizeWeights demoW demoHc 2 :=
  ⟨by decide, by decide,
   (claim_C5_normalize_weights demoW demoHc (by decide) (by decide)).1 0 2 (by decide)⟩

theorem maskCard_update_true {n : ℕ} (p : Fin n → Bool) (j : Fin n)
    (h : p j = false) : maskCard (Function.update p j true) = maskCard p + 1 := by
  unfold maskCard
  have hins : Finset.univ.filter (fun i => Function.update p j true i = true)
      = insert j (Finset.univ.filter (fun i => p i = true)) := by
    ext i
    by_cases hij : i = j
    · subst hij; simp [Function.update_same]
    · simp [Function.update_noteq hij, hij]
  rw [hins, Finset.card_insert_of_not_mem (by simp [h])]

theorem getD_cons_mem {α : Type} (x : α) (xs : List α) (m : ℕ) :
    (x :: xs).getD m x ∈ x :: xs := by
  by_cases h : m < (x :: xs).length
  · rw [List.getD_eq_getElem _ _ h]
    exact List.getElem_mem h
  · rw [List.getD_eq_default _ _ (by omega)]
    exact List.mem_cons_self x xs

theorem grown_trans {n : ℕ} {adjMat : Fin n → Fin n → Bool}
    {a b c d e f : Fin n → Bool} (h₁ : Grown adjMat a b c d)
    (h₂ : Grown adjMat c d e f) : Grown adjMat a b e f := by
  induction h₂ with
  | refl => exact h₁
  | step j _ hn ih => exact Grown.step j ih hn

/-- Invariants of the growth loop: the occupancy mask stays the union of the base
occupancy and the cluster-so-far, the final cluster is grown from the initial one
through the neighbour frontier, on success the returned pair is the final state
and the cluster gained exactly `steps` members, on `ClusterError` the exit state
has an empty frontier and fewer than `steps` gained members, the cluster only
grows, and it never touches base-occupied objects. -/
theorem growLoop_spec {n : ℕ} (adjMat : Fin n → Fin n → Bool) (pick : ℕ → ℕ) :
    ∀ (steps t : ℕ) (cluster already base : Fin n → Bool),
    (∀ i, already i = (base i || cluster i)) →
    (∀ i, cluster i = true → base i = false) →
    (∀ i, (growLoop adjMat pick steps t cluster already).2.1 i
        = (base i || (growLoop adjMat pick steps t cluster already).2.2 i))
    ∧ Grown adjMat cluster already
        (growLoop adjMat pick steps t cluster already).2.2
        (growLoop adjMat pick steps t cluster already).2.1
    ∧ (∀ cl alr,
        (growLoop adjMat pick steps t cluster already).1 = Except.ok (cl, alr) →
        cl = (growLoop adjMat pick steps t cluster already).2.2
        ∧ alr = (growLoop adjMat pick steps t cluster already).2.1
        ∧ maskCard cl = maskCard cluster + steps)
    ∧ ((growLoop adjMat pick steps t cluster already).1 = Except.error () →
        trueList (getNeighbours adjMat
          (growLoop adjMat pick steps t cluster already).2.2
          (growLoop adjMat pick steps t cluster already).2.1) = []
        ∧ maskCard (growLoop adjMat pick steps t cluster already).2.2
            < maskCard cluster + steps)
    ∧ (∀ i, cluster i = true →
        (growLoop adjMat pick steps t cluster already).2.2 i = true)
    ∧ (∀ i, (growLoop adjMat pick steps t cluster already).2.2 i = true →
        base i = false) := by
  intro steps
  induction steps with
  | zero =>
    intro t cluster already base hba hdisj
    have hr : growLoop adjMat pick 0 t cluster already
        = (Except.ok (cluster, already), already, cluster) := rfl
    rw [hr]
    refine ⟨hba, Grown.refl _ _, ?_, ?_, fun i h => h, hdisj⟩
    · intro cl alr hok
      have hpair : cluster = cl ∧ already = alr := by
        simpa [Prod.ext_iff] using hok
      obtain ⟨hc, ha⟩ := hpair
      subst hc; subst ha
      exact ⟨rfl, rfl, by omega⟩
    · intro herr
      exact Except.noConfusion herr
  | succ steps ih =>
    intro t cluster already base hba hdisj
    cases hnb : trueList (getNeighbours adjMat cluster already) with
    | nil =>
      have hr : growLoop adjMat pick (steps + 1) t cluster already
          = (Except.error (), already, cluster) := by
        simp only [growLoop, hnb]
      rw [hr]
      refine ⟨hba, Grown.refl _ _, ?_,
        fun _ => ⟨hnb, by show maskCard cluster < maskCard cluster + (steps + 1); omega⟩,
        fun i h => h, hdisj⟩
      intro cl alr hok
      exact Except.noConfusion hok
    | cons x xs =>
      set site : Fin n := (x :: xs).getD (pick t % (x :: xs).length) x with hsitedef
      have hr : growLoop adjMat pick (steps + 1) t cluster already
          = growLoop adjMat pick steps (t + 1)
              (Function.update cluster site true)
              (Function.update already site true) := by
        simp only [growLoop, hnb]
      rw [hr]
      have hsite_cons : site ∈ x :: xs := by
        rw [hsitedef]; exact getD_cons_mem x xs _
      have hsite_mem : site ∈ trueList (getNeighbours adjMat cluster already) := by
        rw [hnb]; exact hsite_cons
      have hsite_nb : getNeighbours adjMat cluster already site = true :=
        (List.mem_filter.mp hsite_mem).2
      have hsite_alr : already site = false := by
        have := (Bool.and_eq_true _ _).mp hsite_nb
        simpa using this.2
      have hsite_base : base site = false := by
        have hb := hba site
        rw [hsite_alr] at hb
        exact (Bool.or_eq_false_iff.mp hb.symm).1
      have hsite_cl : cluster site = false := by
        have hb := hba site
        rw [hsite_alr] at hb
        exact (Bool.or_eq_false_iff.mp hb.symm).2
      have hba' : ∀ i, Function.update already site true i
          = (base i || Function.update cluster site true i) := by
        intro i
        by_cases hi : i = site
        · subst hi; simp [Function.update_same, hsite_base]
        · rw [Function.update_noteq hi, Function.update_noteq hi]; exact hba i
      have hdisj' : ∀ i, Function.update cluster site true i = true →
          base i = false := by
        intro i hi
        by_cases h : i = site
        · subst h; exact hsite_base
        · rw [Function.update_noteq h] at hi; exact hdisj i hi
      obtain ⟨i1, i2, i3, i4, i5, i6⟩ := ih (t + 1)
        (Function.update cluster site true) (Function.update already site true)
        base hba' hdisj'
      have hcard : maskCard (Function.update cluster site true)
          = maskCard cluster + 1 := maskCard_update_true cluster site hsite_cl
      have hgrow1 : Grown adjMat cluster already
          (Function.update cluster site true) (Function.update already site true) :=
        Grown.step site (Grown.refl _ _) hsite_nb
      refine ⟨i1, grown_trans hgrow1 i2, ?_, ?_, ?_, i6⟩
      · intro cl alr hok
        obtain ⟨e1, e2, e3⟩ := i3 cl alr hok
        exact ⟨e1, e2, by omega⟩
      · intro herr
        obtain ⟨e1, e2⟩ := i4 herr
        exact ⟨e1, by omega⟩
      · intro i hi
        apply i5
        by_cases h : i = site
        · subst h; simp [Function.update_same]
        · rw [Function.update_noteq h]; exact hi

/-- **C6**: for `k ≥ 1`, `grow_cluster_of_size_k` either succeeds with a cluster of
exactly `k` objects, disjoint from the input occupancy mask, grown from a free
seed exclusively through the adjacency-graph neighbour frontier (neighbours of
some member, excluding already-claimed objects), or raises `ClusterError` exactly
when no free seed exists or the neighbour frontier of the partially grown cluster
becomes empty before size `k` is reached. -/
theorem claim_C6_grow_cluster_of_size_k {n : ℕ} (adjMat : Fin n → Fin n → Bool)
    (pick : ℕ → ℕ) (k : ℕ) (already0 : Fin n → Bool) (hk : 1 ≤ k) :
    (∀ cl alr,
      (growClusterOfSizeK adjMat pick k already0).1 = Except.ok (cl, alr) →
      maskCard cl = k
      ∧ (∀ i, cl i = true → already0 i = false)
      ∧ ∃ seed : Fin n, already0 seed = false ∧ cl seed = true
          ∧ Grown adjMat (Function.update (fun _ => false) seed true)
              (Function.update already0 seed true) cl alr)
    ∧ ((growClusterOfSizeK adjMat pick k already0).1 = Except.error ()
        ↔ trueList (fun i => !already0 i) = []
          ∨ (trueList (getNeighbours adjMat
                (growClusterOfSizeK adjMat pick k already0).2.2
                (growClusterOfSizeK adjMat pick k already0).2.1) = []
             ∧ maskCard (growClusterOfSizeK adjMat pick k already0).2.2 < k)) := by
  cases hfree : trueList (fun i => !already0 i) with
  | nil =>
    have hr : growClusterOfSizeK adjMat pick k already0
        = (Except.error (), already0, fun _ => false) := by
      simp only [growClusterOfSizeK, hfree]
    rw [hr]
    refine ⟨fun cl alr hok => Except.noConfusion hok, ?_⟩
    simp [hfree]
  | cons x xs =>
    set seed : Fin n := (x :: xs).getD (pick 0 % (x :: xs).length) x with hseeddef
    have hr : growClusterOfSizeK adjMat pick k already0
        = growLoop adjMat pick (k - 1) 1
            (Function.update (fun _ => false) seed true)
            (Function.update already0 seed true) := by
      simp only [growClusterOfSizeK, hfree]
    rw [hr]
    have hseed_cons : seed ∈ x :: xs := by
      rw [hseeddef]; exact getD_cons_mem x xs _
    have hseed_mem : seed ∈ trueList (fun i => !already0 i) := by
      rw [hfree]; exact hseed_cons
    have hseed_free : already0 seed = false := by
      have := (List.mem_filter.mp hseed_mem).2
      simpa using this
    have hba : ∀ i, Function.update already0 seed true i
        = (already0 i || Function.update (fun _ => false) seed true i) := by
      intro i
      by_cases hi : i = seed
      · subst hi; simp [Function.update_same]
      · simp [Function.update_noteq hi]
    have hdisj : ∀ i, Function.update (fun _ => false) seed true i = true →
        already0 i = false := by
      intro i hi
      by_cases h : i = seed
      · subst h; exact hseed_free
      · rw [Function.update_noteq h] at hi; simp at hi
    obtain ⟨i1, i2, i3, i4, i5, i6⟩ := growLoop_spec adjMat pick (k - 1) 1
      (Function.update (fun _ => false) seed true)
      (Function.update already0 seed true) already0 hba hdisj
    have hcard1 : maskCard (Function.update (fun (_ : Fin n) => false) seed true)
        = 1 := by
      rw [maskCard_update_true (fun _ => false) seed rfl]
      simp [maskCard]
    constructor
    · intro cl alr hok
      obtain ⟨e1, e2, e3⟩ := i3 cl alr hok
      rw [hcard1] at e3
      refine ⟨by omega, fun i hi => i6 i (e1 ▸ hi), seed, hseed_free, ?_, ?_⟩
      · rw [e1]; exact i5 seed (by simp [Function.update_same])
      · rw [e1, e2]; exact i2
    · constructor
      · intro herr
        obtain ⟨e1, e2⟩ := i4 herr
        rw [hcard1] at e2
        exact Or.inr ⟨e1, by omega⟩
      · rintro (hfr | ⟨_, hlt⟩)
        · exact absurd hfr (by simp)
        · rcases hres : (growLoop adjMat pick (k - 1) 1
              (Function.update (fun _ => false) seed true)
              (Function.update already0 seed true)).1 with u | p
          · cases u; rfl
          · exfalso
            obtain ⟨e1, _, e3⟩ := i3 p.1 p.2 (by rw [hres])
            rw [hcard1] at e3
            rw [e1] at e3
            omega

/-- **C10**: the `already_in_cluster` argument is mutated in place — on success
the second returned array is the final state of the caller's array and equals the
input occupancy mask union the grown cluster; when `ClusterError` is raised, the
seed and every object added before the failure remain marked in the caller's
array (its final state is still the input mask union the partial cluster). -/
theorem claim_C10_occupancy_mutation {n : ℕ} (adjMat : Fin n → Fin n → Bool)
    (pick : ℕ → ℕ) (k : ℕ) (already0 : Fin n → Bool) :
    (∀ cl alr,
      (growClusterOfSizeK adjMat pick k already0).1 = Except.ok (cl, alr) →
      alr = (growClusterOfSizeK adjMat pick k already0).2.1
      ∧ ∀ i, alr i = (already0 i || cl i))
    ∧ ((growClusterOfSizeK adjMat pick k already0).1 = Except.error () →
      ∀ i, (growClusterOfSizeK adjMat pick k already0).2.1 i
          = (already0 i || (growClusterOfSizeK adjMat pick k already0).2.2 i)) := by
  cases hfree : trueList (fun i => !already0 i) with
  | nil =>
    have hr : growClusterOfSizeK adjMat pick k already0
        = (Except.error (), already0, fun _ => false) := by
      simp only [growClusterOfSizeK, hfree]
    rw [hr]
    refine ⟨fun cl alr hok => Except.noConfusion hok, fun _ i => by simp⟩
  | cons x xs =>
    set seed : Fin n := (x :: xs).getD (pick 0 % (x :: xs).length) x with hseeddef
    have hr : growClusterOfSizeK adjMat pick k already0
        = growLoop adjMat pick (k - 1) 1
            (Function.update (fun _ => false) seed true)
            (Function.update already0 seed true) := by
      simp only [growClusterOfSizeK, hfree]
    rw [hr]
    have hseed_cons : seed ∈ x :: xs := by
      rw [hseeddef]; exact getD_cons_mem x xs _
    have hseed_mem : seed ∈ trueList (fun i => !already0 i) := by
      rw [hfree]; exact hseed_cons
    have hseed_free : already0 seed = false := by
      have := (List.mem_filter.mp hseed_mem).2
      simpa using this
    have hba : ∀ i, Function.update already0 seed true i
        = (already0 i || Function.update (fun _ => false) seed true i) := by
      intro i
      by_cases hi : i = seed
      · subst hi; simp [Function.update_same]
      · simp [Function.update_noteq hi]
    have hdisj : ∀ i, Function.update (fun _ => false) seed true i = true →
        already0 i = false := by
      intro i hi
      by_cases h : i = seed
      · subst h; exact hseed_free
      · rw [Function.update_noteq h] at hi; simp at hi
    obtain ⟨i1, _, i3, _, _, _⟩ := growLoop_spec adjMat pick (k - 1) 1
      (Function.update (fun _ => false) seed true)
      (Function.update already0 seed true) already0 hba hdisj
    constructor
    · intro cl alr hok
      obtain ⟨e1, e2, _⟩ := i3 cl alr hok
      refine ⟨e2, fun i => ?_⟩
      rw [e2, e1]
      exact i1 i
    · intro _ i
      exact i1 i

/-- Witness for C6 on a path graph of four objects, target size 2, empty
occupancy: the error characterization holds for that run. -/
theorem claim_C6_grow_cluster_of_size_k_witness :
    (1 : ℕ) ≤ 2 ∧
      ((growClusterOfSizeK demoAdj (fun _ => 0) 2 (fun _ => false)).1 = Except.error ()
        ↔ trueList (fun i : Fin 4 => !(fun _ : Fin 4 => (false : Bool)) i) = []
          ∨ (trueList (getNeighbours demoAdj
                (growClusterOfSizeK demoAdj (fun _ => 0) 2 (fun _ => false)).2.2
                (growClusterOfSizeK demoAdj (fun _ => 0) 2 (fun _ => false)).2.1) = []
             ∧ maskCard (growClusterOfSizeK demoAdj (fun _ => 0) 2
                 (fun _ => false)).2.2 < 2)) :=
  ⟨by decide,
   (claim_C6_grow_cluster_of_size_k demoAdj (fun _ => 0) 2 (fun _ => false)
     (by decide)).2⟩

/-- Witness for C10 at the same concrete run: the returned occupancy array is the
final state of the caller's array and is the union of input mask and cluster. -/
theorem claim_C10_occupancy_mutation_witness :
    Function.update (Function.update (fun _ : Fin 4 => false) 0 true) 1 true
      = (growClusterOfSizeK demoAdj (fun _ => 0) 2 (fun _ => false)).2.1
    ∧ ∀ i : Fin 4,
        Function.update (Function.update (fun _ : Fin 4 => false) 0 true) 1 true i
        = ((fun _ : Fin 4 => false) i
            || Function.update (Function.update (fun _ : Fin 4 => false) 0 true)
                 1 true i) :=
  (claim_C10_occupancy_mutation demoAdj (fun _ => 0) 2 (fun _ => false)).1 _ _ rfl

theorem initLoop_spec {n : ℕ} (pick : ℕ → ℕ) :
    ∀ (m t : ℕ) (free : List (Fin n)), free.Nodup →
      (∀ l, initLoop pick m t free = some l →
        l.length = m ∧ l.Nodup ∧ ∀ a ∈ l, a ∈ free)
      ∧ (m ≤ free.length → ∃ l, initLoop pick m t free = some l) := by
  intro m
  induction m with
  | zero =>
    intro t free _
    refine ⟨?_, fun _ => ⟨[], rfl⟩⟩
    intro l hl
    simp only [initLoop, Option.some.injEq] at hl
    subst hl
    exact ⟨rfl, List.nodup_nil, by simp⟩
  | succ m ih =>
    intro t free hnd
    cases free with
    | nil =>
      refine ⟨fun l hl => Option.noConfusion hl, fun hle => absurd hle (by simp)⟩
    | cons x xs =>
      set j : Fin n := (x :: xs).getD (pick t % (x :: xs).length) x with hjdef
      have hj_mem : j ∈ x :: xs := by rw [hjdef]; exact getD_cons_mem x xs _
      have hnd' : ((x :: xs).erase j).Nodup := hnd.erase j
      obtain ⟨ih1, ih2⟩ := ih (t + 1) ((x :: xs).erase j) hnd'
      have hr : initLoop pick (m + 1) t (x :: xs)
          = match initLoop pick m (t + 1) ((x :: xs).erase j) with
            | none => none
            | some rest => some (j :: rest) := by
        simp only [initLoop]
      constructor
      · intro l hl
        rw [hr] at hl
        cases hinner : initLoop pick m (t + 1) ((x :: xs).erase j) with
        | none =>
          rw [hinner] at hl
          exact Option.noConfusion hl
        | some rest =>
          rw [hinner] at hl
          simp only [Option.some.injEq] at hl
          subst hl
          obtain ⟨hlen, hndr, hsub⟩ := ih1 rest hinner
          refine ⟨by simp [hlen], ?_, ?_⟩
          · refine List.nodup_cons.mpr ⟨fun hjr => ?_, hndr⟩
            exact (List.Nodup.not_mem_erase hnd) (hsub j hjr)
          · intro a ha
            rcases List.mem_cons.mp ha with rfl | ha
            · exact hj_mem
            · exact List.mem_of_mem_erase (hsub a ha)
      · intro hle
        have hlen_erase : ((x :: xs).erase j).length = xs.length := by
          rw [List.length_erase_of_mem hj_mem]
          simp
        obtain ⟨rest, hrest⟩ := ih2 (by rw [hlen_erase]; simp at hle; omega)
        exact ⟨j :: rest, by rw [hr, hrest]⟩

/-- **C7**: when `n_clusters ≤ n_objects`, `initialize_clusters` succeeds and
returns one seed per cluster, drawn without replacement (the seed list has no
duplicates); in matrix form every cluster row is `true` at exactly one object and
no object is `true` in more than one row. -/
theorem claim_C7_initialize_clusters {n nClusters : ℕ} (pick : ℕ → ℕ)
    (hk : nClusters ≤ n) :
    ∃ seeds : List (Fin n),
      initializeClusters n nClusters pick = some seeds
      ∧ seeds.length = nClusters
      ∧ seeds.Nodup
      ∧ (∀ c : ℕ, c < nClusters → maskCard (clusterMatrixRow seeds c) = 1)
      ∧ (∀ (o : Fin n) (c₁ c₂ : ℕ), c₁ < nClusters → c₂ < nClusters →
          clusterMatrixRow seeds c₁ o = true → clusterMatrixRow seeds c₂ o = true →
          c₁ = c₂) := by
  obtain ⟨spec1, spec2⟩ := initLoop_spec pick nClusters 0 (List.finRange n)
    (List.nodup_finRange n)
  obtain ⟨seeds, hseeds⟩ := spec2 (by simpa using hk)
  obtain ⟨hlen, hnd, _⟩ := spec1 seeds hseeds
  refine ⟨seeds, hseeds, hlen, hnd, ?_, ?_⟩
  · intro c hc
    have hc' : c < seeds.length := by omega
    unfold maskCard clusterMatrixRow
    have hfil : Finset.univ.filter
        (fun o : Fin n => decide (seeds.get? c = some o) = true)
        = {seeds.get ⟨c, hc'⟩} := by
      ext o
      simp [List.getElem?_eq_getElem hc', eq_comm]
    rw [hfil, Finset.card_singleton]
  · intro o c₁ c₂ h₁ h₂ hr₁ hr₂
    unfold clusterMatrixRow at hr₁ hr₂
    have e₁ : seeds[c₁]? = some o := by
      rw [← List.get?_eq_getElem?]; exact of_decide_eq_true hr₁
    have e₂ : seeds[c₂]? = some o := by
      rw [← List.get?_eq_getElem?]; exact of_decide_eq_true hr₂
    exact List.getElem?_inj (by omega) hnd (e₁.trans e₂.symm)

/-- Witness for C7: three objects, two clusters. -/
theorem claim_C7_initialize_clusters_witness :
    (2 : ℕ) ≤ 3 ∧
      ∃ seeds : List (Fin 3),
        initializeClusters 3 2 (fun _ => 0) = some seeds
        ∧ seeds.length = 2
        ∧ seeds.Nodup
        ∧ (∀ c : ℕ, c < 2 → maskCard (clusterMatrixRow seeds c) = 1)
        ∧ (∀ (o : Fin 3) (c₁ c₂ : ℕ), c₁ < 2 → c₂ < 2 →
            clusterMatrixRow seeds c₁ o = true → clusterMatrixRow seeds c₂ o = true →
            c₁ = c₂) :=
  ⟨by decide, claim_C7_initialize_clusters (fun _ => 0) (by decide)⟩

theorem attemptState_shift {α : Type} (op : α → α × Bool) (s : α) (i : ℕ) :
    attemptState op ((op s).1) i = attemptState op s (i + 1) := by
  induction i with
  | zero => rfl
  | succ i ih =>
    show (op (attemptState op ((op s).1) i)).1 = _
    rw [ih]
    rfl

theorem growRetry_error_iff {α : Type} (op : α → α × Bool) :
    ∀ (m : ℕ) (s : α), growRetry op m s = Except.error ()
      ↔ ∀ i < m, (op (attemptState op s i)).2 = true := by
  intro m
  induction m with
  | zero =>
    intro s
    simp [growRetry]
  | succ m ih =>
    intro s
    by_cases h : (op s).2 = true
    · rw [growRetry, if_pos h, ih]
      constructor
      · intro hall i hi
        cases i with
        | zero => exact h
        | succ i =>
          rw [← attemptState_shift]
          exact hall i (by omega)
      · intro hall i hi
        rw [attemptState_shift]
        exact hall (i + 1) (by omega)
    · rw [growRetry, if_neg h]
      constructor
      · intro hok
        exact Except.noConfusion hok
      · intro hall
        exact absurd (hall 0 (by omega)) h

theorem growRetry_first_success {α : Type} (op : α → α × Bool) :
    ∀ (m j : ℕ) (s : α), j < m →
      (∀ i < j, (op (attemptState op s i)).2 = true) →
      (op (attemptState op s j)).2 = false →
      growRetry op m s = Except.ok ((op (attemptState op s j)).1) := by
  intro m
  induction m with
  | zero =>
    intro j s hj
    omega
  | succ m ih =>
    intro j s hj hpre hrej
    cases j with
    | zero =>
      have h0 : (op s).2 = false := hrej
      rw [growRetry, if_neg (by simp [h0])]
      rfl
    | succ j =>
      have h0 : (op s).2 = true := hpre 0 (by omega)
      rw [growRetry, if_pos h0]
      have hres := ih j ((op s).1) (by omega)
        (fun i hi => by rw [attemptState_shift]; exact hpre (i + 1) (by omega))
        (by rw [attemptState_shift]; exact hrej)
      rw [hres, attemptState_shift]

/-- **C8**: the bounded retry wrapper `grow` raises `ClusterError` exactly when
all 20 attempts of the grow-cluster proposal are rejected (it never loops beyond
the cap), and returns the sample produced by the first non-rejected attempt
(rejected attempts thread their returned sample into the next attempt). -/
theorem claim_C8_grow_bounded_retry {α : Type} (op : α → α × Bool) (s : α) :
    (grow op s = Except.error ()
      ↔ ∀ i < 20, (op (attemptState op s i)).2 = true)
    ∧ (∀ j < 20, (∀ i < j, (op (attemptState op s i)).2 = true) →
        (op (attemptState op s j)).2 = false →
        grow op s = Except.ok ((op (attemptState op s j)).1)) :=
  ⟨growRetry_error_iff op 20 s, fun j hj => growRetry_first_success op 20 j s hj⟩

/-- Witness for C8: a proposal that rejects the first three attempts; `grow`
returns the sample of the fourth attempt. -/
theorem claim_C8_grow_bounded_retry_witness :
    (3 : ℕ) < 20
    ∧ (∀ i < 3, (demoOp (attemptState demoOp 0 i)).2 = true)
    ∧ (demoOp (attemptState demoOp 0 3)).2 = false
    ∧ grow demoOp 0 = Except.ok 4 :=
  ⟨by decide, by decide, by decide,
   (claim_C8_grow_bounded_retry demoOp 0).2 3 (by decide) (by decide) (by decide)⟩

/-- **C9**: `last_sample` depends only on the persisted cluster assignment,
weights and step index — results differing only in persisted source or
sufficient-statistics snapshots give the same reconstructed sample; `i_step` is
the persisted last sample index plus one; and the reconstructed sample carries a
placeholder source re-imputed by `impute_source` from a state whose counts are
still the fresh zeros, and feature counts recomputed by
`recalculate_feature_counts` (not read from the results). -/
theorem claim_C9_last_sample {κ ω σ τ : Type} [Inhabited κ] [Inhabited ω]
    (placeholderSource : σ) (zeroCounts : τ)
    (impute : SampleR κ ω σ τ → σ) (recalc : SampleR κ ω σ τ → τ)
    (r r' : Results κ ω σ τ)
    (hcl : r.clustersHistory = r'.clustersHistory)
    (hw : r.weightsHistory = r'.weightsHistory)
    (hid : r.sampleId = r'.sampleId) :
    lastSample placeholderSource zeroCounts impute recalc r
      = lastSample placeholderSource zeroCounts impute recalc r'
    ∧ (lastSample placeholderSource zeroCounts impute recalc r).iStep
        = r.sampleId.getLastD 0 + 1
    ∧ lastSample placeholderSource zeroCounts impute recalc r
        = { clusters := r.clustersHistory.getLastD default
            weights := r.weightsHistory.getLastD default
            source := impute
              { clusters := r.clustersHistory.getLastD default
                weights := r.weightsHistory.getLastD default
                source := placeholderSource
                featureCounts := zeroCounts
                iStep := r.sampleId.getLastD 0 + 1 }
            featureCounts := recalc
              { clusters := r.clustersHistory.getLastD default
                weights := r.weightsHistory.getLastD default
                source := impute
                  { clusters := r.clustersHistory.getLastD default
                    weights := r.weightsHistory.getLastD default
                    source := placeholderSource
                    featureCounts := zeroCounts
                    iStep := r.sampleId.getLastD 0 + 1 }
                featureCounts := zeroCounts
                iStep := r.sampleId.getLastD 0 + 1 }
            iStep := r.sampleId.getLastD 0 + 1 } := by
  refine ⟨?_, rfl, rfl⟩
  unfold lastSample
  rw [hcl, hw, hid]

/-- Witness for C9: two persisted results agreeing on histories but with
different snapshots reconstruct the same sample. -/
theorem claim_C9_last_sample_witness :
    lastSample (0 : ℕ) (0 : ℕ) (fun s => s.clusters + s.weights)
        (fun s => s.source + 1) demoResults
      = lastSample 0 0 (fun s => s.clusters + s.weights)
          (fun s => s.source + 1) demoResultsAlt :=
  (claim_C9_last_sample 0 0 (fun s => s.clusters + s.weights)
    (fun s => s.source + 1) demoResults demoResultsAlt rfl rfl rfl).1

end SBayes
